import Mathlib

/-!
 Verification of the af-frontend catalog/configurator core: the delimited-text
 parser, the base-product loaders with tier resolution, the description
 normalizer, and the copy-block renderer.  Text is modelled as Lean strings
 (lists of characters); JavaScript numbers are modelled as rationals.
-/

namespace AF

/-- Horizontal whitespace: the characters of the character class with space
and tab used by the normalizer's trailing-whitespace regex. -/
def isHW (c : Char) : Bool := c = ' ' || c = '\t'

/-- The whitespace set of JavaScript trimming (WhiteSpace and LineTerminator
code points): tab, LF, VT, FF, CR, space, NBSP, Ogham space, the Unicode
space separators, line and paragraph separators, narrow and medium spaces,
ideographic space and BOM. -/
def isJSWS (c : Char) : Bool :=
  ([9, 10, 11, 12, 13, 32, 160, 0x1680, 0x2000, 0x2001, 0x2002, 0x2003,
    0x2004, 0x2005, 0x2006, 0x2007, 0x2008, 0x2009, 0x200A, 0x2028, 0x2029,
    0x202F, 0x205F, 0x3000, 0xFEFF] : List Nat).contains c.toNat

/-- Remove leading JS whitespace. -/
def ltrim (l : List Char) : List Char := l.dropWhile isJSWS

/-- Remove trailing JS whitespace. -/
def rtrim (l : List Char) : List Char := (l.reverse.dropWhile isJSWS).reverse

/-- JavaScript String.prototype.trim on character lists. -/
def trimChars (l : List Char) : List Char := ltrim (rtrim l)

/-- JavaScript String.prototype.trim. -/
def strTrim (s : String) : String := ⟨trimChars s.data⟩

/-- ASCII lower-casing, the behaviour of toLowerCase on the inputs the
loaders compare against the literal true. -/
def strLower (s : String) : String := ⟨s.data.map Char.toLower⟩

/-- The loaders' toBool: stringify (undefined gives the empty string), trim,
lower-case, compare with the literal true. -/
def toBool (v : Option String) : Bool := strLower (strTrim (v.getD "")) == "true"

/-- Decimal digit test. -/
def isDigit (c : Char) : Bool := '0' ≤ c && c ≤ '9'

/-- Numeric value of a list of decimal digits. -/
def digitsToNat (l : List Char) : Nat := l.foldl (fun a c => a * 10 + (c.toNat - 48)) 0

/-- Mantissa of a decimal literal: digits with an optional point and
fraction digits.  Returns the value and the unconsumed rest; fails when
no digit is present. -/
def parseMantissa (l : List Char) : Option (ℚ × List Char) :=
  let p := l.span isDigit
  match p.2 with
  | '.' :: r2 =>
      let q := r2.span isDigit
      if p.1 = [] ∧ q.1 = [] then none
      else some ((digitsToNat p.1 : ℚ) + (digitsToNat q.1 : ℚ) / (10 : ℚ) ^ q.1.length, q.2)
  | _ => if p.1 = [] then none else some ((digitsToNat p.1 : ℚ), p.2)

/-- Optional exponent part of a decimal literal. -/
def parseExponent (q : ℚ) (l : List Char) : Option ℚ :=
  match l with
  | [] => some q
  | e :: r =>
      if e = 'e' ∨ e = 'E' then
        let (neg, r2) : Bool × List Char :=
          match r with
          | '+' :: t => (false, t)
          | '-' :: t => (true, t)
          | _ => (false, r)
        if r2 ≠ [] ∧ r2.all isDigit then
          let n := digitsToNat r2
          some (if neg then q / (10 : ℚ) ^ n else q * (10 : ℚ) ^ n)
        else none
      else none

/-- Value of a hex, binary or octal digit below the base, if any. -/
def radixDigit (base : Nat) (c : Char) : Option Nat :=
  let v :=
    if isDigit c then some (c.toNat - 48)
    else if 'a' ≤ c ∧ c ≤ 'f' then some (c.toNat - 87)
    else if 'A' ≤ c ∧ c ≤ 'F' then some (c.toNat - 55)
    else none
  match v with
  | some n => if n < base then some n else none
  | none => none

/-- Value of a digit list in the given base, if every digit fits. -/
def parseRadix (base : Nat) (l : List Char) : Option Nat :=
  l.foldl (fun acc c => match acc, radixDigit base c with
    | some a, some d => some (a * base + d)
    | _, _ => none) (some 0)

/-- The finite result of JavaScript Number() on a string: trims the JS
whitespace set, the empty remainder is 0, then a signed decimal literal
with optional exponent, or an unsigned 0x, 0o or 0b integer literal.
Returns none when the conversion is NaN or infinite (the word Infinity,
or an unparseable remainder), which the loaders replace by 0. -/
def jsNumber (l0 : List Char) : Option ℚ :=
  let l := trimChars l0
  match l with
  | [] => some 0
  | '0' :: x :: r =>
      if x = 'x' ∨ x = 'X' then (if r ≠ [] then (parseRadix 16 r).map (fun n => (n : ℚ)) else none)
      else if x = 'o' ∨ x = 'O' then (if r ≠ [] then (parseRadix 8 r).map (fun n => (n : ℚ)) else none)
      else if x = 'b' ∨ x = 'B' then (if r ≠ [] then (parseRadix 2 r).map (fun n => (n : ℚ)) else none)
      else
        match parseMantissa l with
        | some (q, rest) => parseExponent q rest
        | none => none
  | _ =>
      let (neg, l1) : Bool × List Char :=
        match l with
        | '+' :: t => (false, t)
        | '-' :: t => (true, t)
        | _ => (false, l)
      if l1 = "Infinity".data then none
      else
        match parseMantissa l1 with
        | some (q, rest) => (parseExponent q rest).map (fun v => if neg then -v else v)
        | none => none

/-- The tier-joining loader's toNum: Number(v) with undefined giving NaN,
then 0 unless the result is finite. -/
def toNumJoin (v : Option String) : ℚ :=
  match v with
  | none => 0
  | some s => (jsNumber s.data).getD 0

/-- The basic loader's toNum: stringify (undefined gives the empty string),
trim, Number(), then 0 unless the result is finite. -/
def toNumSimple (v : Option String) : ℚ :=
  (jsNumber (strTrim (v.getD "")).data).getD 0

/-- JavaScript Number.prototype.toFixed(2) on the rational model: a sign for
negative inputs, then the magnitude rounded to the nearest hundredth with
ties taking the larger candidate, printed with exactly two fraction digits. -/
def toFixed2 (q : ℚ) : String :=
  let sgn : String := if q < 0 then "-" else ""
  let x : ℚ := if q < 0 then -q else q
  let n : Nat := (Rat.floor (x * 100 + 1/2)).toNat
  let f : Nat := n % 100
  sgn ++ Nat.repr (n / 100) ++ "." ++ (if f < 10 then "0" else "") ++ Nat.repr f

/-! ## The delimited-text parser -/

/-- End-of-input flush of the parser: the pending field joins the pending
row, and the final row is appended unless it is a single empty field. -/
def csvFlush (rows : List (List (List Char))) (row : List (List Char))
    (field : List Char) : List (List (List Char)) :=
  if row = [] ∧ field = [] then rows else rows ++ [row ++ [field]]

/-- The character loop of parseCSV: state is the in-quotes flag, the pending
field, the pending row and the finished rows. -/
def parseCSVAux : Bool → List Char → List (List Char) → List (List (List Char)) →
    List Char → List (List (List Char))
  | _, field, row, rows, [] => csvFlush rows row field
  | true, field, row, rows, '"' :: '"' :: rest => parseCSVAux true (field ++ ['"']) row rows rest
  | true, field, row, rows, '"' :: rest => parseCSVAux false field row rows rest
  | true, field, row, rows, c :: rest => parseCSVAux true (field ++ [c]) row rows rest
  | false, field, row, rows, '"' :: rest => parseCSVAux true field row rows rest
  | false, field, row, rows, ',' :: rest => parseCSVAux false [] (row ++ [field]) rows rest
  | false, field, row, rows, '\n' :: rest => parseCSVAux false [] [] (rows ++ [row ++ [field]]) rest
  | false, field, row, rows, '\r' :: rest => parseCSVAux false field row rows rest
  | false, field, row, rows, c :: rest => parseCSVAux false (field ++ [c]) row rows rest

/-- parseCSV on character lists. -/
def parseCSVChars (l : List Char) : List (List (List Char)) :=
  parseCSVAux false [] [] [] l

/-- The CSV parser shared by the loaders: quoted fields with doubled-quote
escapes, comma field separator, LF row separator, CR skipped outside
quotes, and a trailing unterminated row kept unless it is a single empty
field. -/
def parseCSV (s : String) : List (List String) :=
  (parseCSVChars s.data).map (fun r => r.map (fun f => (⟨f⟩ : String)))

/-! ## Header-indexed cell access -/

/-- Column-name to index map of the loaders: Object.fromEntries over the
enumerated, trimmed header, a later duplicate column overwriting an
earlier one. -/
def colIdx (hdr : List String) (name : String) : Option Nat :=
  ((((hdr.map strTrim).enum).filter (fun p => p.2 = name)).map (fun p => p.1)).getLast?

/-- r[i]: undefined when the column is missing or the row is short. -/
def cellOpt (r : List String) (i : Option Nat) : Option String :=
  i.bind (fun j => r.get? j)

/-- A row survives the loaders' filter when some cell trims to non-empty. -/
def keepRow (r : List String) : Bool := r.any (fun c => strTrim c != "")

/-! ## The basic loader (src/loadBaseProducts.ts) -/

/-- The record shape produced by the basic loader: the string fields are the
raw cells, which are undefined when the column is absent. -/
structure RawBaseProduct where
  code : Option String
  brand : Option String
  model_name : Option String
  label : Option String
  category : Option String
  tier : Option String
  organic : Bool
  usa_made : Bool
  active : Bool
  retail_price : ℚ
  fit_notes : Option String
deriving DecidableEq

/-- The basic loader's per-row record: raw cells for the string fields,
toBool for the flags, toNum for the price. -/
def mkSimpleRecord (hdr : List String) (r : List String) : RawBaseProduct where
  code := cellOpt r (colIdx hdr "code")
  brand := cellOpt r (colIdx hdr "brand")
  model_name := cellOpt r (colIdx hdr "model_name")
  label := cellOpt r (colIdx hdr "label")
  category := cellOpt r (colIdx hdr "category")
  tier := cellOpt r (colIdx hdr "tier")
  organic := toBool (cellOpt r (colIdx hdr "organic"))
  usa_made := toBool (cellOpt r (colIdx hdr "usa_made"))
  active := toBool (cellOpt r (colIdx hdr "active"))
  retail_price := toNumSimple (cellOpt r (colIdx hdr "retail_price"))
  fit_notes := cellOpt r (colIdx hdr "fit_notes")

/-- The pure part of the basic loader: parse, shift the header, drop rows
whose cells all trim to empty, convert the rest. -/
def loadSimpleItems (text : String) : List RawBaseProduct :=
  let rows := parseCSV text
  ((rows.tail).filter keepRow).map (mkSimpleRecord (rows.headD []))

/-- A fetch outcome: the ok flag, the HTTP status and the body text. -/
structure Resp where
  ok : Bool
  status : Nat
  text : String
deriving DecidableEq

/-- The loaders' failure message, naming the unavailable source file. -/
def errMsg (name : String) (status : Nat) : String :=
  "Failed to load " ++ name ++ ": " ++ Nat.repr status

/-- The basic loader including its fetch check. -/
def loadBaseProductsSimple (res : Resp) : Except String (List RawBaseProduct) :=
  if !res.ok then .error (errMsg "base_products.csv" res.status)
  else .ok (loadSimpleItems res.text)

/-! ## The tier-joining loader (AFCatalogApp variant of loadBaseProducts) -/

/-- The fully resolved base-product record of the joining loader. -/
structure BaseProduct where
  code : String
  brand : String
  model_name : String
  label : String
  category : String
  tier : String
  organic : Bool
  usa_made : Bool
  active : Bool
  retail_price : ℚ
  fit_notes : String
deriving DecidableEq

/-- Key-value rows folded into a lookup table; entries with a blank key are
skipped, and Map.set overwrites, so lookup takes the last entry. -/
def mapEntries (rows : List (List String)) (kIdx vIdx : Option Nat) :
    List (String × String) :=
  rows.foldl (fun m r =>
    let k := strTrim ((cellOpt r kIdx).getD "")
    let v := strTrim ((cellOpt r vIdx).getD "")
    if k ≠ "" then m ++ [(k, v)] else m) []

/-- Map.get: the last value set for the key, none when never set. -/
def mapGet (m : List (String × String)) (k : String) : Option String :=
  ((m.filter (fun p => p.1 = k)).map (fun p => p.2)).getLast?

/-- A two-column CSV source folded into a lookup table, as the tier-map and
brand-map builders do. -/
def buildKVMap (text : String) (kName vName : String) : List (String × String) :=
  let rows := parseCSV text
  mapEntries rows.tail (colIdx (rows.headD []) kName) (colIdx (rows.headD []) vName)

/-- JavaScript || on strings: the empty string is falsy. -/
def jsOr (a b : String) : String := if a = "" then b else a

/-- The tier resolution of the joining loader, exactly its source line:
trimmed row tier, or-else the per-code entry, or-else the per-brand entry,
or-else the empty string, where a looked-up empty string is falsy. -/
def resolveTierJS (rawTier : String) (tm bm : List (String × String))
    (code brand : String) : String :=
  jsOr (strTrim rawTier) (jsOr ((mapGet tm code).getD "")
    (jsOr ((mapGet bm brand).getD "") ""))

/-- The joining loader's per-row record: trimmed strings, resolved tier,
toBool flags, Number price. -/
def mkJoinRecord (tm bm : List (String × String)) (hdr : List String)
    (r : List String) : BaseProduct :=
  let code := strTrim ((cellOpt r (colIdx hdr "code")).getD "")
  let brand := strTrim ((cellOpt r (colIdx hdr "brand")).getD "")
  { code := code
    brand := brand
    model_name := strTrim ((cellOpt r (colIdx hdr "model_name")).getD "")
    label := strTrim ((cellOpt r (colIdx hdr "label")).getD "")
    category := strTrim ((cellOpt r (colIdx hdr "category")).getD "")
    tier := resolveTierJS ((cellOpt r (colIdx hdr "tier")).getD "") tm bm code brand
    organic := toBool (cellOpt r (colIdx hdr "organic"))
    usa_made := toBool (cellOpt r (colIdx hdr "usa_made"))
    active := toBool (cellOpt r (colIdx hdr "active"))
    retail_price := toNumJoin (cellOpt r (colIdx hdr "retail_price"))
    fit_notes := strTrim ((cellOpt r (colIdx hdr "fit_notes")).getD "") }

/-- The pure join: build both lookup tables, parse the base table, drop
all-blank rows, convert and resolve each remaining row in order. -/
def joinItems (bpText tierText brandText : String) : List BaseProduct :=
  let tm := buildKVMap tierText "code" "tier"
  let bm := buildKVMap brandText "brand" "tier"
  let rows := parseCSV bpText
  ((rows.tail).filter keepRow).map (mkJoinRecord tm bm (rows.headD []))

/-- The joining loader including its three fetch checks, in source order. -/
def loadBaseProductsJoin (bpRes tierRes brandRes : Resp) :
    Except String (List BaseProduct) :=
  if !bpRes.ok then .error (errMsg "base_products.csv" bpRes.status)
  else if !tierRes.ok then .error (errMsg "tier_map.csv" tierRes.status)
  else if !brandRes.ok then .error (errMsg "brand_tier_map.csv" brandRes.status)
  else .ok (joinItems bpRes.text tierRes.text brandRes.text)

/-! ## The description normalizer (tidy) -/

/-- First tidy step: each CRLF pair becomes a single LF, scanning left to
right without overlap. -/
def replCRLF : List Char → List Char
  | '\r' :: '\n' :: rest => '\n' :: replCRLF rest
  | c :: rest => c :: replCRLF rest
  | [] => []

/-- Second tidy step: a run of three or more LFs collapses to exactly two.
The flag records that the current run's two LFs are already emitted and
further LFs of the run are being discarded. -/
def collapse3Aux : Bool → List Char → List Char
  | true, '\n' :: rest => collapse3Aux true rest
  | true, c :: rest => c :: collapse3Aux false rest
  | true, [] => []
  | false, '\n' :: '\n' :: '\n' :: rest => '\n' :: '\n' :: collapse3Aux true rest
  | false, c :: rest => c :: collapse3Aux false rest
  | false, [] => []

/-- Second tidy step at the start state. -/
def collapse3 (l : List Char) : List Char := collapse3Aux false l

/-- Whether the characters from here reach an LF through horizontal
whitespace only: such positions are inside a match of the third tidy
step's regex. -/
def leadsToNl : List Char → Bool
  | '\n' :: _ => true
  | c :: rest => isHW c && leadsToNl rest
  | [] => false

/-- Third tidy step: horizontal whitespace immediately preceding an LF
(through further horizontal whitespace) is removed. -/
def stripHW : List Char → List Char
  | [] => []
  | c :: rest => if isHW c && leadsToNl rest then stripHW rest else c :: stripHW rest

/-- The normalizer on character lists: CRLF to LF, collapse newline runs,
strip trailing horizontal whitespace, trim both ends. -/
def tidyChars (l : List Char) : List Char :=
  trimChars (stripHW (collapse3 (replCRLF l)))

/-- The description normalizer tidy. -/
def tidy (s : String) : String := ⟨tidyChars s.data⟩

/-! ## The copy-block renderer -/

/-- The static tier display label table. -/
def TIER_LABEL (k : String) : Option String :=
  if k = "std" then some "Std"
  else if k = "mid" then some "Mid"
  else if k = "premium_non_org" then some "Premium"
  else if k = "premium_org" then some "Premium +"
  else if k = "heavy_top" then some "Mid"
  else if k = "alt_mid_triblend" then some "Mid"
  else none

/-- TIER_LABEL[k] ?? k: the display label with raw-key fallback. -/
def tierDisplay (k : String) : String := (TIER_LABEL k).getD k

/-- The user's feature toggle set. -/
structure Features where
  organic : Bool := false
  usa_made : Bool := false
  triblend : Bool := false
deriving DecidableEq

/-- Set.add on an insertion-ordered deduplicated list. -/
def addTag (l : List String) (s : String) : List String :=
  if s ∈ l then l else l ++ [s]

/-- The merged tag set of buildCopyBlock: the raw tier key seeds the set,
then inherent-or-toggled organic and usa_made, then toggled triblend. -/
def tagsOf (b : BaseProduct) (f : Features) : List String :=
  let t0 := [b.tier]
  let t1 := if b.organic || f.organic then addTag t0 "organic" else t0
  let t2 := if b.usa_made || f.usa_made then addTag t1 "usa_made" else t1
  if f.triblend then addTag t2 "triblend" else t2

/-- The copy-block renderer of the variant with the Tier line: a five-line
header, a blank line, then the description body. -/
def buildCopyBlock (b : BaseProduct) (f : Features) (body : String) : String :=
  "Base Product Name: " ++ b.label ++ "\n" ++
  "Base Product Code: " ++ b.code ++ "\n" ++
  "Retail Price: $" ++ toFixed2 b.retail_price ++ "\n" ++
  "Tier: " ++ tierDisplay b.tier ++ "\n" ++
  "Tags used: " ++ String.intercalate ", " (tagsOf b f) ++
  "\n\n" ++ body

/-- The generated fallback description: a hard-coded special case for one
product code, else a two-line template from fit notes and brand/model. -/
def buildDescription (b : BaseProduct) : String :=
  if b.code = "AS4062" then
    "A modern cropped tee with a relaxed silhouette that pairs easily with high-waisted bottoms.\n" ++
    "- Midweight combed cotton (heathers may vary)\n" ++
    "- Relaxed fit, cropped length\n" ++
    "- Ribbed crew neck, side-seamed\n" ++
    "- Preshrunk to minimize shrinkage"
  else
    "- " ++ (if b.fit_notes = "" then "Comfortable everyday fit" else b.fit_notes) ++
    "\n- Brand: " ++ b.brand ++ " " ++ b.model_name

end AF

namespace AF

/-! ## Scanners and supporting definitions used by the theorems -/

/-- Whether three consecutive LFs occur somewhere. -/
def hasTriple : List Char → Bool
  | '\n' :: '\n' :: '\n' :: _ => true
  | _ :: rest => hasTriple rest
  | [] => false

/-- Whether a space or tab immediately precedes an LF somewhere. -/
def hasHWNL : List Char → Bool
  | a :: b :: rest => (isHW a && b == '\n') || hasHWNL (b :: rest)
  | _ => false

/-- A string with its CR characters removed. -/
def removeCR (s : String) : String := ⟨s.data.filter (fun c => c != '\r')⟩

/-- First present and non-blank entry of a candidate list, else empty:
the resolution order the source's falsy-or chain actually implements. -/
def firstNonBlank : List (Option String) → String
  | [] => ""
  | some s :: rest => if s ≠ "" then s else firstNonBlank rest
  | none :: rest => firstNonBlank rest

/-! ## Supporting definitions for the claims -/

/-- The tier resolution chain as the specification words it: the row's own
tier if non-blank after trimming, otherwise the per-code override table
entry, otherwise the per-brand default table entry, otherwise empty.  A
second definition following the claim's words, for comparison with the
source's resolveTierJS. -/
def resolveTierClaimed (rawTier : String) (tm bm : List (String × String))
    (code brand : String) : String :=
  if strTrim rawTier ≠ "" then strTrim rawTier
  else
    match mapGet tm code with
    | some t => t
    | none =>
      match mapGet bm brand with
      | some t => t
      | none => ""

/-- The end-to-end render example record of the specification. -/
def classicTee : BaseProduct where
  code := "X1"
  brand := ""
  model_name := ""
  label := "Classic Tee"
  category := ""
  tier := "std"
  organic := false
  usa_made := false
  active := true
  retail_price := 19.995
  fit_notes := ""

/-- A record whose tier key has a display label different from the key. -/
def premiumOrgTee : BaseProduct where
  code := "ST1"
  brand := ""
  model_name := ""
  label := ""
  category := ""
  tier := "premium_org"
  organic := true
  usa_made := false
  active := true
  retail_price := 0
  fit_notes := ""

/-- The record produced by the joining loader for the witness row. -/
def witnessRec : BaseProduct where
  code := "X1"
  brand := "B"
  model_name := ""
  label := ""
  category := ""
  tier := ""
  organic := false
  usa_made := false
  active := false
  retail_price := 0
  fit_notes := ""

/-! ## Helper lemmas about dropWhile and trimming -/

theorem dropWhile_self_idem (p : Char → Bool) (l : List Char) :
    (l.dropWhile p).dropWhile p = l.dropWhile p := by
  induction l with
  | nil => rfl
  | cons a t ih =>
    by_cases h : p a
    · simpa [List.dropWhile_cons, h] using ih
    · simp [List.dropWhile_cons, h]

theorem dropWhile_is_sfx (p : Char → Bool) (l : List Char) :
    ∃ s, l = s ++ l.dropWhile p := by
  induction l with
  | nil => exact ⟨[], rfl⟩
  | cons a t ih =>
    by_cases h : p a
    · obtain ⟨s, hs⟩ := ih
      exact ⟨a :: s, by simp [List.dropWhile_cons, h, ← hs]⟩
    · exact ⟨[], by simp [List.dropWhile_cons, h]⟩

theorem length_dropWhile_le_self (p : Char → Bool) (l : List Char) :
    (l.dropWhile p).length ≤ l.length := by
  obtain ⟨s, hs⟩ := dropWhile_is_sfx p l
  have h := congrArg List.length hs
  simp only [List.length_append] at h
  omega

theorem ltrim_idem (l : List Char) : ltrim (ltrim l) = ltrim l :=
  dropWhile_self_idem isJSWS l

theorem rtrim_idem (l : List Char) : rtrim (rtrim l) = rtrim l := by
  simp [rtrim, dropWhile_self_idem]

theorem rtrim_fix_head (l : List Char) (h : rtrim l = l) :
    l.reverse.dropWhile isJSWS = l.reverse := by
  have := congrArg List.reverse h
  simpa [rtrim] using this

theorem trimChars_idem (l : List Char) : trimChars (trimChars l) = trimChars l := by
  have hbfix : rtrim (rtrim l) = rtrim l := rtrim_idem l
  have hltr : ltrim (ltrim (rtrim l)) = ltrim (rtrim l) := ltrim_idem _
  have hrtr : rtrim (ltrim (rtrim l)) = ltrim (rtrim l) := by
    rcases hc : (ltrim (rtrim l)).reverse with _ | ⟨c', t'⟩
    · have hu0 : ltrim (rtrim l) = [] := by
        have h := congrArg List.reverse hc
        simpa using h
      rw [hu0]; rfl
    · -- the whole of ltrim (rtrim l) is a suffix of rtrim l, whose last
      -- character is not whitespace since rtrim is already a fixed point
      obtain ⟨s, hs⟩ : ∃ s, rtrim l = s ++ ltrim (rtrim l) :=
        dropWhile_is_sfx isJSWS (rtrim l)
      have hbrev : (rtrim l).reverse.dropWhile isJSWS = (rtrim l).reverse :=
        rtrim_fix_head _ hbfix
      have hbrev2 : (rtrim l).reverse = c' :: (t' ++ s.reverse) := by
        rw [hs]; simp [hc]
      have hwc' : isJSWS c' = false := by
        by_contra hw
        have hw' : isJSWS c' = true := by simpa using hw
        rw [hbrev2] at hbrev
        simp only [List.dropWhile_cons, hw', if_true] at hbrev
        have hlen := congrArg List.length hbrev
        have hle := length_dropWhile_le_self isJSWS (t' ++ s.reverse)
        simp only [List.length_cons] at hlen
        omega
      show ((ltrim (rtrim l)).reverse.dropWhile isJSWS).reverse = ltrim (rtrim l)
      rw [hc, List.dropWhile_cons, if_neg (by simp [hwc'])]
      rw [← hc]; simp
  show ltrim (rtrim (ltrim (rtrim l))) = ltrim (rtrim l)
  rw [hrtr, hltr]

theorem strTrim_idem (s : String) : strTrim (strTrim s) = strTrim s := by
  cases s with
  | mk data => simp [strTrim, trimChars_idem]

/-! ## Helper lemmas for the normalizer -/

theorem hasTriple_tail (c : Char) (l : List Char) (h : hasTriple (c :: l) = false) :
    hasTriple l = false := by
  rw [hasTriple.eq_def] at h
  split at h
  · exact absurd h (by simp)
  · rename_i c' rest' heq
    injection heq with e1 e2
    subst e2; exact h
  · rename_i heq
    exact absurd heq (List.cons_ne_nil _ _)

theorem hasHWNL_tail (c : Char) (l : List Char) (h : hasHWNL (c :: l) = false) :
    hasHWNL l = false := by
  cases l with
  | nil => rfl
  | cons b rest =>
    rw [hasHWNL.eq_def] at h
    simp only [Bool.or_eq_false_iff] at h
    exact h.2

theorem hasTriple_append_right (l₁ l₂ : List Char)
    (h : hasTriple (l₁ ++ l₂) = false) : hasTriple l₂ = false := by
  induction l₁ with
  | nil => exact h
  | cons c t ih => exact ih (hasTriple_tail c _ (by simpa using h))

theorem hasHWNL_append_right (l₁ l₂ : List Char)
    (h : hasHWNL (l₁ ++ l₂) = false) : hasHWNL l₂ = false := by
  induction l₁ with
  | nil => exact h
  | cons c t ih => exact ih (hasHWNL_tail c _ (by simpa using h))

theorem hasTriple_append_of (l₁ l₂ : List Char) (h : hasTriple l₁ = true) :
    hasTriple (l₁ ++ l₂) = true := by
  induction l₁ using hasTriple.induct with
  | case1 rest =>
    rw [hasTriple.eq_def]; simp
  | case2 c rest h1 ih =>
    rw [hasTriple.eq_def] at h
    split at h
    · rename_i rest' heq
      injection heq with e1 e2
      subst e1; subst e2
      rw [hasTriple.eq_def]; simp
    · rename_i c' rest' heq
      injection heq with e1 e2
      subst e1; subst e2
      have h2 := ih h
      rw [List.cons_append, hasTriple.eq_def]
      split
      · simp
      · rename_i c'' rest'' heq
        injection heq with f1 f2
        exact f2 ▸ h2
      · rename_i heq
        exact absurd heq (List.cons_ne_nil _ _)
    · rename_i heq
      exact absurd heq (List.cons_ne_nil _ _)
  | case3 => simp [hasTriple] at h

theorem hasTriple_append_left (l₁ l₂ : List Char)
    (h : hasTriple (l₁ ++ l₂) = false) : hasTriple l₁ = false := by
  by_contra hx
  have h2 := hasTriple_append_of l₁ l₂ (by simpa using hx)
  rw [h2] at h
  exact Bool.noConfusion h

theorem hasHWNL_append_of (l₁ l₂ : List Char) (h : hasHWNL l₁ = true) :
    hasHWNL (l₁ ++ l₂) = true := by
  induction l₁ using hasHWNL.induct with
  | case1 a b rest ih =>
    rw [hasHWNL.eq_def] at h
    simp only [Bool.or_eq_true] at h
    have hg : (a :: b :: rest) ++ l₂ = a :: b :: (rest ++ l₂) := by simp
    rw [hg, hasHWNL.eq_def]
    simp only [Bool.or_eq_true]
    rcases h with h | h
    · exact Or.inl h
    · exact Or.inr (by simpa using ih h)
  | case2 l h1 =>
    -- lists of length at most one never satisfy hasHWNL
    exfalso
    cases l with
    | nil => simp [hasHWNL] at h
    | cons a t =>
      cases t with
      | nil => simp [hasHWNL] at h
      | cons b rest => exact h1 a b rest rfl

theorem hasHWNL_append_left (l₁ l₂ : List Char)
    (h : hasHWNL (l₁ ++ l₂) = false) : hasHWNL l₁ = false := by
  by_contra hx
  have h2 := hasHWNL_append_of l₁ l₂ (by simpa using hx)
  rw [h2] at h
  exact Bool.noConfusion h

theorem replCRLF_of_noCR (l : List Char) (h : '\r' ∉ l) : replCRLF l = l := by
  induction l using replCRLF.induct with
  | case1 rest ih => simp at h
  | case2 c rest h1 ih =>
    simp only [List.mem_cons, not_or] at h
    rw [replCRLF.eq_def]
    split
    · rename_i rest' heq
      injection heq with e1 e2
      exact absurd e1.symm h.1
    · rename_i c' rest' heq
      injection heq with e1 e2
      subst e1; subst e2
      rw [ih h.2]
    · rename_i heq
      exact absurd heq (List.cons_ne_nil _ _)
  | case3 => rfl

theorem collapse3Aux_nil (fl : Bool) : collapse3Aux fl [] = [] := by
  cases fl <;> rfl

theorem collapse3Aux_true_cons (c : Char) (rest : List Char) (hc : c ≠ '\n') :
    collapse3Aux true (c :: rest) = c :: collapse3Aux false rest := by
  rw [collapse3Aux.eq_def]
  split <;> simp_all

theorem collapse3Aux_false_cons (c : Char) (rest : List Char)
    (hnt : ¬ (c = '\n' ∧ ∃ t, rest = '\n' :: '\n' :: t)) :
    collapse3Aux false (c :: rest) = c :: collapse3Aux false rest := by
  rw [collapse3Aux.eq_def]
  split <;> simp_all

theorem head?_collapse3Aux_false (l : List Char) :
    (collapse3Aux false l).head? = l.head? := by
  rw [collapse3Aux.eq_def]
  split <;> simp_all

theorem collapse3Aux_true_head_ne (l : List Char) :
    (collapse3Aux true l).head? ≠ some '\n' := by
  induction l with
  | nil => simp [collapse3Aux_nil]
  | cons c rest ih =>
    by_cases hc : c = '\n'
    · subst hc
      exact (show collapse3Aux true ('\n' :: rest) = collapse3Aux true rest from rfl) ▸ ih
    · rw [collapse3Aux_true_cons c rest hc]
      simpa using hc

theorem hasTriple_cons_skip (c : Char) (X : List Char)
    (h : ¬ (c = '\n' ∧ ∃ t, X = '\n' :: '\n' :: t)) :
    hasTriple (c :: X) = hasTriple X := by
  rw [hasTriple.eq_def]
  split <;> simp_all

theorem hasTriple_two_nl (X : List Char) (hx : X.head? ≠ some '\n') :
    hasTriple ('\n' :: '\n' :: X) = hasTriple X := by
  have h1 : hasTriple ('\n' :: '\n' :: X) = hasTriple ('\n' :: X) := by
    apply hasTriple_cons_skip
    rintro ⟨-, t, ht⟩
    injection ht with e1 e2
    exact hx (by rw [e2]; rfl)
  have h2 : hasTriple ('\n' :: X) = hasTriple X := by
    apply hasTriple_cons_skip
    rintro ⟨-, t, ht⟩
    exact hx (by rw [ht]; rfl)
  rw [h1, h2]

theorem hasHWNL_cons_false_iff (c : Char) (X : List Char) :
    hasHWNL (c :: X) = false ↔
      hasHWNL X = false ∧ ¬ (isHW c = true ∧ X.head? = some '\n') := by
  cases X with
  | nil => simp [hasHWNL]
  | cons b rest =>
    show ((isHW c && (b == '\n')) || hasHWNL (b :: rest)) = false ↔ _
    by_cases hw : isHW c = true <;> by_cases hb : b = '\n' <;> simp_all

theorem collapse3Aux_noCR (fl : Bool) (l : List Char) (h : '\r' ∉ l) :
    '\r' ∉ collapse3Aux fl l := by
  revert h
  induction fl, l using collapse3Aux.induct with
  | case1 rest ih =>
    intro h
    exact (show collapse3Aux true ('\n' :: rest) = collapse3Aux true rest from rfl) ▸
      ih (fun hm => h (List.mem_cons_of_mem _ hm))
  | case2 c rest h1 ih =>
    intro h
    simp only [List.mem_cons, not_or] at h
    rw [collapse3Aux_true_cons c rest (fun e => h1 e)]
    simp only [List.mem_cons, not_or]
    exact ⟨fun e => h.1 e, fun hm => ih h.2 hm⟩
  | case3 => intro h; simp [collapse3Aux_nil]
  | case4 rest ih =>
    intro h
    simp only [List.mem_cons, not_or] at h
    show '\r' ∉ '\n' :: '\n' :: collapse3Aux true rest
    simp only [List.mem_cons, not_or]
    refine ⟨by decide, by decide, fun hm => ih ?_ hm⟩
    exact h.2.2.2
  | case5 c rest h1 ih =>
    intro h
    simp only [List.mem_cons, not_or] at h
    rw [collapse3Aux_false_cons c rest (fun ⟨e, t, ht⟩ => h1 t e ht)]
    simp only [List.mem_cons, not_or]
    exact ⟨fun e => h.1 e, fun hm => ih h.2 hm⟩
  | case6 => intro h; simp [collapse3Aux_nil]

theorem collapse3Aux_noTriple (fl : Bool) (l : List Char) :
    hasTriple (collapse3Aux fl l) = false := by
  induction fl, l using collapse3Aux.induct with
  | case1 rest ih =>
    exact (show collapse3Aux true ('\n' :: rest) = collapse3Aux true rest from rfl) ▸ ih
  | case2 c rest h1 ih =>
    rw [collapse3Aux_true_cons c rest (fun e => h1 e)]
    rw [hasTriple_cons_skip c _ (fun hp => h1 hp.1)]
    exact ih
  | case3 => rfl
  | case4 rest ih =>
    show hasTriple ('\n' :: '\n' :: collapse3Aux true rest) = false
    rw [hasTriple_two_nl _ (collapse3Aux_true_head_ne rest)]
    exact ih
  | case5 c rest h1 ih =>
    rw [collapse3Aux_false_cons c rest (fun ⟨e, t, ht⟩ => h1 t e ht)]
    rw [hasTriple_cons_skip c _ ?_]
    · exact ih
    · rintro ⟨hcnl, t, ht⟩
      -- then rest begins with an LF whose successor in the output is an LF,
      -- which the head lemmas rule out
      have hhead : (collapse3Aux false rest).head? = rest.head? :=
        head?_collapse3Aux_false rest
      rw [ht] at hhead
      rcases rest with _ | ⟨d, r2⟩
      · simp at hhead
      · simp only [List.head?_cons, Option.some.injEq] at hhead
        subst hhead
        have hr2 : r2.head? ≠ some '\n' := by
          intro he
          rcases r2 with _ | ⟨e', r3⟩
          · simp at he
          · simp only [List.head?_cons, Option.some.injEq] at he
            exact h1 r3 hcnl (by rw [he])
        have hx : collapse3Aux false ('\n' :: r2) = '\n' :: collapse3Aux false r2 := by
          apply collapse3Aux_false_cons
          rintro ⟨-, t', ht'⟩
          exact hr2 (by rw [ht']; rfl)
        rw [hx] at ht
        injection ht with e1 e2
        have hhead2 : (collapse3Aux false r2).head? = r2.head? :=
          head?_collapse3Aux_false r2
        rw [e2] at hhead2
        simp only [List.head?_cons] at hhead2
        exact hr2 hhead2.symm
  | case6 => rfl

theorem collapse3Aux_noHWNL (fl : Bool) (l : List Char) (h : hasHWNL l = false) :
    hasHWNL (collapse3Aux fl l) = false := by
  revert h
  induction fl, l using collapse3Aux.induct with
  | case1 rest ih =>
    intro h
    exact (show collapse3Aux true ('\n' :: rest) = collapse3Aux true rest from rfl) ▸
      ih (hasHWNL_tail _ _ h)
  | case2 c rest h1 ih =>
    intro h
    rw [collapse3Aux_true_cons c rest (fun e => h1 e)]
    rw [hasHWNL_cons_false_iff] at h ⊢
    refine ⟨ih h.1, fun hp => h.2 ⟨hp.1, ?_⟩⟩
    rw [← head?_collapse3Aux_false rest]
    exact hp.2
  | case3 => intro h; rfl
  | case4 rest ih =>
    intro h
    show hasHWNL ('\n' :: '\n' :: collapse3Aux true rest) = false
    rw [hasHWNL_cons_false_iff]
    refine ⟨?_, fun hp => by simpa [isHW] using hp.1⟩
    rw [hasHWNL_cons_false_iff]
    refine ⟨?_, fun hp => by simpa [isHW] using hp.1⟩
    exact ih (hasHWNL_tail _ _ (hasHWNL_tail _ _ (hasHWNL_tail _ _ h)))
  | case5 c rest h1 ih =>
    intro h
    rw [collapse3Aux_false_cons c rest (fun ⟨e, t, ht⟩ => h1 t e ht)]
    rw [hasHWNL_cons_false_iff] at h ⊢
    refine ⟨ih h.1, fun hp => h.2 ⟨hp.1, ?_⟩⟩
    rw [← head?_collapse3Aux_false rest]
    exact hp.2
  | case6 => intro h; rfl

theorem collapse3Aux_false_fix (l : List Char) (h : hasTriple l = false) :
    collapse3Aux false l = l := by
  have main : ∀ fl m, fl = false → hasTriple m = false → collapse3Aux fl m = m := by
    intro fl m
    induction fl, m using collapse3Aux.induct with
    | case1 rest ih => intro hfl; exact absurd hfl (by simp)
    | case2 c rest h1 ih => intro hfl; exact absurd hfl (by simp)
    | case3 => intro hfl; exact absurd hfl (by simp)
    | case4 rest ih =>
      intro _ ht
      exfalso
      have : hasTriple ('\n' :: '\n' :: '\n' :: rest) = true := by
        rw [hasTriple.eq_def]; simp
      rw [this] at ht
      exact Bool.noConfusion ht
    | case5 c rest h1 ih =>
      intro _ ht
      rw [collapse3Aux_false_cons c rest (fun ⟨e, t, hr⟩ => h1 t e hr)]
      rw [ih rfl (hasTriple_tail c rest ht)]
    | case6 => intro _ _; rfl
  exact main false l rfl h

theorem leadsToNl_false_of_noHWNL : ∀ (l : List Char) (c : Char),
    isHW c = true → hasHWNL (c :: l) = false → leadsToNl l = false := by
  intro l
  induction l with
  | nil => intro c _ _; rfl
  | cons b rest ih =>
    intro c hc h
    have h' : ((isHW c && (b == '\n')) || hasHWNL (b :: rest)) = false := h
    simp only [Bool.or_eq_false_iff, Bool.and_eq_false_iff] at h'
    have hb : b ≠ '\n' := by
      rcases h'.1 with h1 | h1
      · rw [hc] at h1; exact Bool.noConfusion h1
      · intro e; rw [e] at h1; simp at h1
    rw [leadsToNl.eq_def]
    split
    · rename_i heq
      injection heq with e1 e2
      exact absurd e1 hb
    · rename_i c' rest' heq
      injection heq with e1 e2
      subst e1; subst e2
      by_cases hwb : isHW b = true
      · rw [ih b hwb h'.2]
        simp
      · simp [hwb]
    · rename_i heq
      exact absurd heq (List.cons_ne_nil _ _)

theorem stripHW_fix (l : List Char) (h : hasHWNL l = false) : stripHW l = l := by
  induction l with
  | nil => rfl
  | cons c rest ih =>
    show (if isHW c && leadsToNl rest then stripHW rest else c :: stripHW rest) = c :: rest
    by_cases hc : isHW c = true
    · rw [leadsToNl_false_of_noHWNL rest c hc h]
      simp [ih (hasHWNL_tail c rest h)]
    · simp [hc, ih (hasHWNL_tail c rest h)]

/-! ## Closure of the scanners under trimming -/

theorem rtrim_is_pre (l : List Char) : ∃ m, l = rtrim l ++ m := by
  obtain ⟨s, hs⟩ := dropWhile_is_sfx isJSWS l.reverse
  refine ⟨s.reverse, ?_⟩
  conv_lhs => rw [← List.reverse_reverse l, hs]
  simp [rtrim, List.reverse_append]

theorem trimChars_mid (l : List Char) : ∃ s t, l = s ++ trimChars l ++ t := by
  obtain ⟨m, hm⟩ := rtrim_is_pre l
  obtain ⟨s, hs⟩ := dropWhile_is_sfx isJSWS (rtrim l)
  refine ⟨s, m, ?_⟩
  rw [show trimChars l = (rtrim l).dropWhile isJSWS from rfl]
  conv_lhs => rw [hm, hs]

theorem hasTriple_trimChars (l : List Char) (h : hasTriple l = false) :
    hasTriple (trimChars l) = false := by
  obtain ⟨s, t, hst⟩ := trimChars_mid l
  rw [hst] at h
  exact hasTriple_append_right _ _ (hasTriple_append_left _ _ h)

theorem hasHWNL_trimChars (l : List Char) (h : hasHWNL l = false) :
    hasHWNL (trimChars l) = false := by
  obtain ⟨s, t, hst⟩ := trimChars_mid l
  rw [hst] at h
  exact hasHWNL_append_right _ _ (hasHWNL_append_left _ _ h)

theorem noCR_trimChars (l : List Char) (h : '\r' ∉ l) : '\r' ∉ trimChars l := by
  obtain ⟨s, t, hst⟩ := trimChars_mid l
  rw [hst] at h
  intro hm
  exact h (by simp [hm])

/-! ## Idempotence of tidy on carriage-return-free, pre-stripped input -/

theorem tidyChars_idem (l : List Char) (h1 : '\r' ∉ l) (h2 : hasHWNL l = false) :
    tidyChars (tidyChars l) = tidyChars l := by
  have e1 : replCRLF l = l := replCRLF_of_noCR l h1
  have hz_tri : hasTriple (collapse3 l) = false := collapse3Aux_noTriple false l
  have hz_hw : hasHWNL (collapse3 l) = false := collapse3Aux_noHWNL false l h2
  have hz_cr : '\r' ∉ collapse3 l := collapse3Aux_noCR false l h1
  have e2 : stripHW (collapse3 l) = collapse3 l := stripHW_fix _ hz_hw
  have etidy : tidyChars l = trimChars (collapse3 l) := by
    rw [tidyChars, e1, e2]
  have hy_tri : hasTriple (tidyChars l) = false := by
    rw [etidy]; exact hasTriple_trimChars _ hz_tri
  have hy_hw : hasHWNL (tidyChars l) = false := by
    rw [etidy]; exact hasHWNL_trimChars _ hz_hw
  have hy_cr : '\r' ∉ tidyChars l := by
    rw [etidy]; exact noCR_trimChars _ hz_cr
  rw [show tidyChars (tidyChars l) =
      trimChars (stripHW (collapse3 (replCRLF (tidyChars l)))) from rfl]
  rw [replCRLF_of_noCR _ hy_cr]
  rw [show collapse3 (tidyChars l) = tidyChars l from collapse3Aux_false_fix _ hy_tri]
  rw [stripHW_fix _ hy_hw]
  rw [etidy]
  exact trimChars_idem _

/-! ## Helper lemmas about the parser -/

theorem parseCSVAux_quote_run (t : List Char) (h : '"' ∉ t) :
    ∀ f r rs, parseCSVAux true f r rs t = csvFlush rs r (f ++ t) := by
  induction t with
  | nil => intro f r rs; simp [parseCSVAux]
  | cons c rest ih =>
    intro f r rs
    simp only [List.mem_cons, not_or] at h
    have he : parseCSVAux true f r rs (c :: rest) = parseCSVAux true (f ++ [c]) r rs rest := by
      rw [parseCSVAux.eq_def]
      split <;> simp_all
    rw [he, ih h.2]
    simp

/-- The parser step for an ordinary character outside quotes. -/
theorem parseCSVAux_false_other (c : Char) (hq : c ≠ '"') (hcm : c ≠ ',')
    (hnl : c ≠ '\n') (hcr : c ≠ '\r') :
    ∀ f r rs m, parseCSVAux false f r rs (c :: m) = parseCSVAux false (f ++ [c]) r rs m := by
  intro f r rs m
  rw [parseCSVAux.eq_def]
  split <;> simp_all

/-- Outside quotes each character class steps the parser the same way
whether or not CR characters are interspersed, since CR is skipped. -/
theorem parseCSVAux_false_dropCR (l : List Char) (h : '"' ∉ l) :
    ∀ f r rs, parseCSVAux false f r rs l =
      parseCSVAux false f r rs (l.filter (fun c => c != '\r')) := by
  induction l with
  | nil => intro f r rs; rfl
  | cons c rest ih =>
    intro f r rs
    simp only [List.mem_cons, not_or] at h
    by_cases hcr : c = '\r'
    · subst hcr
      rw [show parseCSVAux false f r rs ('\r' :: rest) = parseCSVAux false f r rs rest from rfl]
      rw [show List.filter (fun c => c != '\r') ('\r' :: rest) =
            List.filter (fun c => c != '\r') rest by simp [List.filter_cons]]
      exact ih h.2 f r rs
    · have hfil : List.filter (fun c => c != '\r') (c :: rest) =
          c :: List.filter (fun c => c != '\r') rest := by
        simp [List.filter_cons, hcr]
      rw [hfil]
      by_cases hcm : c = ','
      · subst hcm
        rw [show parseCSVAux false f r rs (',' :: rest) =
              parseCSVAux false [] (r ++ [f]) rs rest from rfl]
        rw [show parseCSVAux false f r rs (',' :: List.filter (fun c => c != '\r') rest) =
              parseCSVAux false [] (r ++ [f]) rs (List.filter (fun c => c != '\r') rest) from rfl]
        exact ih h.2 [] (r ++ [f]) rs
      · by_cases hnl : c = '\n'
        · subst hnl
          rw [show parseCSVAux false f r rs ('\n' :: rest) =
                parseCSVAux false [] [] (rs ++ [r ++ [f]]) rest from rfl]
          rw [show parseCSVAux false f r rs ('\n' :: List.filter (fun c => c != '\r') rest) =
                parseCSVAux false [] [] (rs ++ [r ++ [f]]) (List.filter (fun c => c != '\r') rest)
                from rfl]
          exact ih h.2 [] [] (rs ++ [r ++ [f]])
        · have hstep := parseCSVAux_false_other c (fun e => h.1 e.symm) hcm hnl hcr
          rw [hstep f r rs rest, hstep f r rs (List.filter (fun c => c != '\r') rest)]
          exact ih h.2 (f ++ [c]) r rs

/-- Outside quotes no CR character ever enters a field, a row or the
finished rows. -/
theorem parseCSVAux_false_noCR (l : List Char) (h : '"' ∉ l) :
    ∀ f r rs, '\r' ∉ f → (∀ x ∈ r, '\r' ∉ x) → (∀ row ∈ rs, ∀ x ∈ row, '\r' ∉ x) →
      ∀ row ∈ parseCSVAux false f r rs l, ∀ x ∈ row, '\r' ∉ x := by
  induction l with
  | nil =>
    intro f r rs hf hr hrs row hrow x hx
    rw [show parseCSVAux false f r rs [] = csvFlush rs r f from rfl] at hrow
    rw [csvFlush] at hrow
    split at hrow
    · exact hrs row hrow x hx
    · rw [List.mem_append] at hrow
      rcases hrow with hrow | hrow
      · exact hrs row hrow x hx
      · simp only [List.mem_singleton] at hrow
        subst hrow
        rw [List.mem_append] at hx
        rcases hx with hx | hx
        · exact hr x hx
        · simp only [List.mem_singleton] at hx
          subst hx
          exact hf
  | cons c rest ih =>
    intro f r rs hf hr hrs
    simp only [List.mem_cons, not_or] at h
    by_cases hcr : c = '\r'
    · subst hcr
      rw [show parseCSVAux false f r rs ('\r' :: rest) = parseCSVAux false f r rs rest from rfl]
      exact ih h.2 f r rs hf hr hrs
    · by_cases hcm : c = ','
      · subst hcm
        rw [show parseCSVAux false f r rs (',' :: rest) =
              parseCSVAux false [] (r ++ [f]) rs rest from rfl]
        refine ih h.2 [] (r ++ [f]) rs (by simp) ?_ hrs
        intro x hx
        rw [List.mem_append] at hx
        rcases hx with hx | hx
        · exact hr x hx
        · simp only [List.mem_singleton] at hx; subst hx; exact hf
      · by_cases hnl : c = '\n'
        · subst hnl
          rw [show parseCSVAux false f r rs ('\n' :: rest) =
                parseCSVAux false [] [] (rs ++ [r ++ [f]]) rest from rfl]
          refine ih h.2 [] [] (rs ++ [r ++ [f]]) (by simp) (by simp) ?_
          intro row hrow x hx
          rw [List.mem_append] at hrow
          rcases hrow with hrow | hrow
          · exact hrs row hrow x hx
          · simp only [List.mem_singleton] at hrow
            subst hrow
            rw [List.mem_append] at hx
            rcases hx with hx | hx
            · exact hr x hx
            · simp only [List.mem_singleton] at hx; subst hx; exact hf
        · rw [parseCSVAux_false_other c (fun e => h.1 e.symm) hcm hnl hcr f r rs rest]
          refine ih h.2 (f ++ [c]) r rs ?_ hr hrs
          intro hx
          rw [List.mem_append] at hx
          rcases hx with hx | hx
          · exact hf hx
          · simp only [List.mem_singleton] at hx
            exact hcr hx.symm

/-! ## Helper lemmas about the renderer and the join -/

theorem addTag_head_keep (l : List String) (s : String) (h : l ≠ []) :
    (addTag l s).head? = l.head? ∧ addTag l s ≠ [] := by
  rw [addTag]
  split
  · exact ⟨rfl, h⟩
  · cases l with
    | nil => exact absurd rfl h
    | cons a t => constructor <;> simp

theorem tagsOf_head (b : BaseProduct) (f : Features) :
    (tagsOf b f).head? = some b.tier := by
  have step : ∀ (l : List String) (cond : Bool) (s : String), l ≠ [] →
      ((if cond then addTag l s else l).head? = l.head? ∧
        (if cond then addTag l s else l) ≠ []) := by
    intro l cond s h
    cases cond
    · exact ⟨rfl, h⟩
    · simpa using addTag_head_keep l s h
  obtain ⟨e1, n1⟩ := step [b.tier] (b.organic || f.organic) "organic" (by simp)
  obtain ⟨e2, n2⟩ := step _ (b.usa_made || f.usa_made) "usa_made" n1
  obtain ⟨e3, n3⟩ := step _ f.triblend "triblend" n2
  show (tagsOf b f).head? = some b.tier
  rw [tagsOf]
  rw [e3, e2, e1]
  rfl

theorem resolveTierJS_eq_firstNonBlank (rawTier : String)
    (tm bm : List (String × String)) (code brand : String) :
    resolveTierJS rawTier tm bm code brand =
      firstNonBlank [some (strTrim rawTier), mapGet tm code, mapGet bm brand] := by
  rw [resolveTierJS]
  rcases h1 : mapGet tm code with _ | t <;> rcases h2 : mapGet bm brand with _ | u <;>
    simp only [jsOr, firstNonBlank, Option.getD_none, Option.getD_some] <;>
    split_ifs <;> simp_all [firstNonBlank]

theorem joinItems_mem (bp tm bm : String) (rec : BaseProduct)
    (h : rec ∈ joinItems bp tm bm) :
    ∃ row ∈ (parseCSV bp).tail, keepRow row = true ∧
      rec = mkJoinRecord (buildKVMap tm "code" "tier") (buildKVMap bm "brand" "tier")
        ((parseCSV bp).headD []) row := by
  simp only [joinItems] at h
  rw [List.mem_map] at h
  obtain ⟨row, hrow, heq⟩ := h
  rw [List.mem_filter] at hrow
  exact ⟨row, hrow.1, hrow.2, heq.symm⟩

end AF

namespace AF

/-! ## Claims -/

/-- C1 (counterexample): with a present-but-blank per-code override entry
and a per-brand default, the loader resolves the brand default while the
claim's strict first-match chain prescribes the blank override entry. -/
theorem claim_C1_counterexample :
    (joinItems "code,brand,tier\nX1,B,\n" "code,tier\nX1,\n" "brand,tier\nB,core\n").map
        (fun b => b.tier) = ["core"] ∧
    resolveTierClaimed "" (buildKVMap "code,tier\nX1,\n" "code" "tier")
        (buildKVMap "brand,tier\nB,core\n" "brand" "tier") "X1" "B" = "" ∧
    ("core" : String) ≠ "" :=
  ⟨by with_unfolding_all rfl, by with_unfolding_all rfl, by decide⟩

/-- C1 (amended): for every base-product row the joining loader resolves the
tier to the first present and non-blank candidate of: the trimmed row tier,
the per-code override entry, the per-brand default entry; otherwise the
empty string.  A present-but-blank table entry is skipped, not returned. -/
theorem claim_C1_tier_resolution (tm bm : List (String × String))
    (hdr : List String) (r : List String) :
    (mkJoinRecord tm bm hdr r).tier =
      firstNonBlank [some (strTrim ((cellOpt r (colIdx hdr "tier")).getD "")),
        mapGet tm (strTrim ((cellOpt r (colIdx hdr "code")).getD "")),
        mapGet bm (strTrim ((cellOpt r (colIdx hdr "brand")).getD ""))] :=
  resolveTierJS_eq_firstNonBlank _ _ _ _ _

/-- C2 (counterexample): tidy is not idempotent: stripping the blank from
a line of horizontal whitespace creates a three-newline run that only a
second application collapses. -/
theorem claim_C2_counterexample :
    tidy (tidy "a\n\n \nb") ≠ tidy "a\n\n \nb" := by decide

/-- C2 (amended): tidy is idempotent on every input that contains no
carriage return and no space or tab immediately preceding a newline. -/
theorem claim_C2_tidy_idem (s : String) (h1 : '\r' ∉ s.data)
    (h2 : hasHWNL s.data = false) : tidy (tidy s) = tidy s :=
  congrArg String.mk (tidyChars_idem s.data h1 h2)

/-- C2 (witness). -/
theorem claim_C2_witness : tidy (tidy "ab \tcd\n\nef") = tidy "ab \tcd\n\nef" :=
  claim_C2_tidy_idem "ab \tcd\n\nef" (by decide) (by decide)

/-- C3 (counterexample): with the base source ok and the tier-override
source unavailable, the load fails instead of degrading gracefully. -/
theorem claim_C3_counterexample :
    loadBaseProductsJoin ⟨true, 200, "code,brand,tier\nX1,B,std\n"⟩ ⟨false, 404, ""⟩
        ⟨true, 200, ""⟩ = .error "Failed to load tier_map.csv: 404" := by
  with_unfolding_all rfl

/-- C3 (amended): all three sources are required.  When the base-product
source is ok but the tier-override or brand-default source is not, the load
fails with the error naming the first unavailable of the two, and no
records are returned. -/
theorem claim_C3_optional_sources_required (bpRes tierRes brandRes : Resp)
    (hbp : bpRes.ok = true) (hfail : tierRes.ok = false ∨ brandRes.ok = false) :
    loadBaseProductsJoin bpRes tierRes brandRes =
      .error (if tierRes.ok = false then errMsg "tier_map.csv" tierRes.status
              else errMsg "brand_tier_map.csv" brandRes.status) ∧
    ∀ l, loadBaseProductsJoin bpRes tierRes brandRes ≠ .ok l := by
  rw [loadBaseProductsJoin]
  rcases htier : tierRes.ok with _ | _
  · simp [hbp, htier]
  · rcases hfail with hfail | hfail
    · rw [hfail] at htier; exact Bool.noConfusion htier
    · simp [hbp, htier, hfail]

/-- C3 (witness). -/
theorem claim_C3_witness :
    loadBaseProductsJoin ⟨true, 200, ""⟩ ⟨false, 404, ""⟩ ⟨true, 200, ""⟩ =
      .error (if (false : Bool) = false then errMsg "tier_map.csv" 404
              else errMsg "brand_tier_map.csv" 200) ∧
    ∀ l, loadBaseProductsJoin ⟨true, 200, ""⟩ ⟨false, 404, ""⟩ ⟨true, 200, ""⟩ ≠ .ok l :=
  claim_C3_optional_sources_required ⟨true, 200, ""⟩ ⟨false, 404, ""⟩ ⟨true, 200, ""⟩
    rfl (Or.inl rfl)

/-- C4: for the Classic Tee example record with price 19.995 and tier std,
the copy block is exactly the five header lines, each ending in one LF,
with the price rendered as 20.00 and the tier label Std, then a blank line,
then the description body. -/
theorem claim_C4_render_example (body : String) :
    buildCopyBlock classicTee {} body =
      "Base Product Name: Classic Tee\nBase Product Code: X1\nRetail Price: $20.00\nTier: Std\nTags used: std\n\n"
        ++ body := by
  have hH : "Base Product Name: " ++ classicTee.label ++ "\n" ++
      "Base Product Code: " ++ classicTee.code ++ "\n" ++
      "Retail Price: $" ++ toFixed2 classicTee.retail_price ++ "\n" ++
      "Tier: " ++ tierDisplay classicTee.tier ++ "\n" ++
      "Tags used: " ++ String.intercalate ", " (tagsOf classicTee {}) ++ "\n\n" =
      "Base Product Name: Classic Tee\nBase Product Code: X1\nRetail Price: $20.00\nTier: Std\nTags used: std\n\n" := by
    with_unfolding_all rfl
  calc buildCopyBlock classicTee {} body
      = ("Base Product Name: " ++ classicTee.label ++ "\n" ++
        "Base Product Code: " ++ classicTee.code ++ "\n" ++
        "Retail Price: $" ++ toFixed2 classicTee.retail_price ++ "\n" ++
        "Tier: " ++ tierDisplay classicTee.tier ++ "\n" ++
        "Tags used: " ++ String.intercalate ", " (tagsOf classicTee {}) ++ "\n\n") ++ body := by
        rw [buildCopyBlock]
    _ = _ := by rw [hH]

/-- C5 (counterexample): a row with a blank code but a non-blank brand is
kept, so the loader returns a record whose code is empty. -/
theorem claim_C5_counterexample :
    (joinItems "code,brand\n,BrandX" "" "").map (fun b => b.code) = [""] := by
  with_unfolding_all rfl

/-- C5 (amended): every returned record arises from a parsed row with at
least one non-blank cell (all-blank rows are excluded), but rows with a
blank code and another non-blank cell are retained, so a returned record
may have an empty code. -/
theorem claim_C5_blank_rows (bp tm bm : String) (rec : BaseProduct)
    (h : rec ∈ joinItems bp tm bm) :
    ∃ row ∈ (parseCSV bp).tail, (∃ c ∈ row, strTrim c ≠ "") ∧
      rec = mkJoinRecord (buildKVMap tm "code" "tier") (buildKVMap bm "brand" "tier")
        ((parseCSV bp).headD []) row := by
  obtain ⟨row, hrow, hk, heq⟩ := joinItems_mem bp tm bm rec h
  refine ⟨row, hrow, ?_, heq⟩
  rw [keepRow, List.any_eq_true] at hk
  obtain ⟨c, hc, hne⟩ := hk
  exact ⟨c, hc, by simpa using hne⟩

/-- C5 (witness). -/
theorem claim_C5_witness :
    ∃ row ∈ (parseCSV "code,brand\nX1,B").tail, (∃ c ∈ row, strTrim c ≠ "") ∧
      witnessRec = mkJoinRecord (buildKVMap "" "code" "tier") (buildKVMap "" "brand" "tier")
        ((parseCSV "code,brand\nX1,B").headD []) row :=
  claim_C5_blank_rows "code,brand\nX1,B" "" "" witnessRec
    (by rw [show joinItems "code,brand\nX1,B" "" "" = [witnessRec] from by with_unfolding_all rfl]
        exact List.mem_singleton_self _)

/-- C6 (counterexample): the basic loader copies the raw cell into the
record untrimmed. -/
theorem claim_C6_counterexample :
    (loadSimpleItems "code,brand\n X1 ,B").map (fun rec => rec.code) = [some " X1 "] ∧
    strTrim " X1 " ≠ " X1 " :=
  ⟨by with_unfolding_all rfl, by decide⟩

/-- C6 (amended): in the tier-joining loader every returned record has
trim-fixed string fields, each boolean field is true exactly when its raw
cell trims and lower-cases to the literal true (a missing cell giving
false), and the price is the Number value of its cell with 0 substituted
for a non-finite result; the basic loader instead copies string cells raw. -/
theorem claim_C6_field_conversion (bp tm bm : String) (rec : BaseProduct)
    (h : rec ∈ joinItems bp tm bm) :
    (strTrim rec.code = rec.code ∧ strTrim rec.brand = rec.brand ∧
     strTrim rec.model_name = rec.model_name ∧ strTrim rec.label = rec.label ∧
     strTrim rec.category = rec.category ∧ strTrim rec.fit_notes = rec.fit_notes) ∧
    ∃ row ∈ (parseCSV bp).tail,
      (rec.organic = true ↔
        strLower (strTrim ((cellOpt row (colIdx ((parseCSV bp).headD []) "organic")).getD "")) = "true") ∧
      (rec.usa_made = true ↔
        strLower (strTrim ((cellOpt row (colIdx ((parseCSV bp).headD []) "usa_made")).getD "")) = "true") ∧
      (rec.active = true ↔
        strLower (strTrim ((cellOpt row (colIdx ((parseCSV bp).headD []) "active")).getD "")) = "true") ∧
      rec.retail_price = toNumJoin (cellOpt row (colIdx ((parseCSV bp).headD []) "retail_price")) := by
  obtain ⟨row, hrow, hk, heq⟩ := joinItems_mem bp tm bm rec h
  subst heq
  constructor
  · exact ⟨strTrim_idem _, strTrim_idem _, strTrim_idem _, strTrim_idem _,
      strTrim_idem _, strTrim_idem _⟩
  · refine ⟨row, hrow, ?_, ?_, ?_, rfl⟩ <;>
      · show toBool _ = true ↔ _
        rw [toBool, beq_iff_eq]

/-- C6 (witness). -/
theorem claim_C6_witness :
    (strTrim witnessRec.code = witnessRec.code ∧ strTrim witnessRec.brand = witnessRec.brand ∧
     strTrim witnessRec.model_name = witnessRec.model_name ∧
     strTrim witnessRec.label = witnessRec.label ∧
     strTrim witnessRec.category = witnessRec.category ∧
     strTrim witnessRec.fit_notes = witnessRec.fit_notes) ∧
    ∃ row ∈ (parseCSV "code,brand\nX1,B").tail,
      (witnessRec.organic = true ↔
        strLower (strTrim ((cellOpt row (colIdx ((parseCSV "code,brand\nX1,B").headD []) "organic")).getD "")) = "true") ∧
      (witnessRec.usa_made = true ↔
        strLower (strTrim ((cellOpt row (colIdx ((parseCSV "code,brand\nX1,B").headD []) "usa_made")).getD "")) = "true") ∧
      (witnessRec.active = true ↔
        strLower (strTrim ((cellOpt row (colIdx ((parseCSV "code,brand\nX1,B").headD []) "active")).getD "")) = "true") ∧
      witnessRec.retail_price =
        toNumJoin (cellOpt row (colIdx ((parseCSV "code,brand\nX1,B").headD []) "retail_price")) :=
  claim_C6_field_conversion "code,brand\nX1,B" "" "" witnessRec
    (by rw [show joinItems "code,brand\nX1,B" "" "" = [witnessRec] from by with_unfolding_all rfl]
        exact List.mem_singleton_self _)

/-- C7 (counterexample): for the tier key premium_org the display label is
Premium +, but the first rendered tag is the raw key premium_org. -/
theorem claim_C7_counterexample :
    (tagsOf premiumOrgTee {}).head? = some "premium_org" ∧
    tierDisplay "premium_org" = "Premium +" ∧
    ("premium_org" : String) ≠ "Premium +" := by
  refine ⟨?_, by decide, by decide⟩
  decide

/-- C7 (amended): the first tag of the merged tag set is always the raw
tier key of the record; the human display label (with raw-key fallback for
unknown keys) is used on the Tier header line instead. -/
theorem claim_C7_first_tag (b : BaseProduct) (f : Features) :
    (tagsOf b f).head? = some b.tier :=
  tagsOf_head b f

/-- C8 (counterexample): inside a quoted field a carriage return is
preserved verbatim in the emitted field. -/
theorem claim_C8_counterexample :
    parseCSV "\"a\rb\"" = [["a\rb"]] ∧ '\r' ∈ ("a\rb" : String).data := by
  refine ⟨by decide, by decide⟩

/-- C8 (amended): outside quoted fields a bare LF and a CRLF pair terminate
a row identically (CR characters are transparent to the parse) and no CR
appears in any emitted field; a CR inside a quoted field is kept. -/
theorem claim_C8_cr_outside_quotes (s : String) (h : '"' ∉ s.data) :
    parseCSV s = parseCSV (removeCR s) ∧
    ∀ row ∈ parseCSV s, ∀ fld ∈ row, '\r' ∉ fld.data := by
  constructor
  · rw [parseCSV, parseCSV]
    have hd : (removeCR s).data = s.data.filter (fun c => c != '\r') := rfl
    rw [hd, parseCSVChars, parseCSVChars]
    rw [parseCSVAux_false_dropCR s.data h [] [] []]
  · intro row hrow fld hfld
    rw [parseCSV, List.mem_map] at hrow
    obtain ⟨crow, hcrow, hmap⟩ := hrow
    subst hmap
    rw [List.mem_map] at hfld
    obtain ⟨cf, hcf, hmk⟩ := hfld
    subst hmk
    exact parseCSVAux_false_noCR s.data h [] [] [] (by simp) (by simp) (by simp)
      crow hcrow cf hcf

/-- C8 (witness). -/
theorem claim_C8_witness :
    parseCSV "a,b\r\nc" = parseCSV (removeCR "a,b\r\nc") ∧
    ∀ row ∈ parseCSV "a,b\r\nc", ∀ fld ∈ row, '\r' ∉ fld.data :=
  claim_C8_cr_outside_quotes "a,b\r\nc" (by decide)

/-- C9: when the fetch of the base-product source is not ok, both loader
variants fail with the error naming base_products.csv and its status, and
neither returns a record list. -/
theorem claim_C9_required_source (bpRes tierRes brandRes : Resp)
    (h : bpRes.ok = false) :
    loadBaseProductsJoin bpRes tierRes brandRes =
      .error (errMsg "base_products.csv" bpRes.status) ∧
    loadBaseProductsSimple bpRes = .error (errMsg "base_products.csv" bpRes.status) ∧
    (∀ l, loadBaseProductsJoin bpRes tierRes brandRes ≠ .ok l) ∧
    (∀ l, loadBaseProductsSimple bpRes ≠ .ok l) := by
  rw [loadBaseProductsJoin, loadBaseProductsSimple]
  simp [h]

/-- C9 (witness). -/
theorem claim_C9_witness :
    loadBaseProductsJoin ⟨false, 500, ""⟩ ⟨true, 200, ""⟩ ⟨true, 200, ""⟩ =
      .error (errMsg "base_products.csv" 500) ∧
    loadBaseProductsSimple ⟨false, 500, ""⟩ = .error (errMsg "base_products.csv" 500) ∧
    (∀ l, loadBaseProductsJoin ⟨false, 500, ""⟩ ⟨true, 200, ""⟩ ⟨true, 200, ""⟩ ≠ .ok l) ∧
    (∀ l, loadBaseProductsSimple ⟨false, 500, ""⟩ ≠ .ok l) :=
  claim_C9_required_source ⟨false, 500, ""⟩ ⟨true, 200, ""⟩ ⟨true, 200, ""⟩ rfl

/-- C10 (counterexample): for the input consisting of one double quote the
parser ends inside an unclosed quoted field with nothing accumulated, and
that field is not emitted: the result has no rows at all. -/
theorem claim_C10_counterexample : parseCSV "\"" = [] := by decide

/-- C10 (amended): the parser is a total function, and an input that ends
inside an unclosed quoted field emits the accumulated characters as a
field, except that a sole empty unclosed field at end of input is dropped
like any empty trailing row. -/
theorem claim_C10_unclosed_quote (s : String) (h : '"' ∉ s.data) (hne : s ≠ "") :
    parseCSV ("\"" ++ s) = [[s]] := by
  rw [parseCSV]
  have hd : ("\"" ++ s).data = '"' :: s.data := by
    cases s with
    | mk data => rfl
  rw [hd, parseCSVChars]
  have e1 : parseCSVAux false [] [] [] ('"' :: s.data) = parseCSVAux true [] [] [] s.data := rfl
  rw [e1, parseCSVAux_quote_run s.data h [] [] []]
  have hsd : s.data ≠ [] := by
    intro he
    apply hne
    exact congrArg String.mk he
  rw [csvFlush]
  rw [if_neg (by simp [hsd])]
  simp

/-- C10 (witness). -/
theorem claim_C10_witness : parseCSV ("\"" ++ "abc") = [["abc"]] :=
  claim_C10_unclosed_quote "abc" (by decide) (by decide)

end AF
